import Mathlib

/-!
# Verification of the quillforms block-editor selectors and rich-text element renderer

Shallow embedding of `packages/block-editor/src/store/selectors.ts` and
`packages/rich-text/src/components/element/index.tsx`.

Conventions:
* A JavaScript value that may be `undefined` is modelled with `Option`.
* A selector whose body can throw a `TypeError` (dereferencing `.supports`
  on an `undefined` block type) returns `Option _`, where `none` means the
  call throws; an inner `Option` models a normal `undefined` return value.
* The block-type registry (`select('quillForms/blocks').getBlockTypes()` /
  `getBlockType`) is an external collaborator; it is passed explicitly as a
  function `Registry := String → Option BlockType`.
* JavaScript `Array.prototype.findIndex` (returning `-1` on no match) is
  modelled by `jsFindIndex : Int`.
-/

/-- Capability flags of a block type.  Only `editable` is consulted by the
selectors under verification; in the source `supports.editable` may also be
absent, which behaves like `false` under the strict `=== true` test, so a
`Bool` field suffices. -/
structure Supports where
  editable : Bool
deriving DecidableEq, Repr

/-- A registered block type: the `supports` record of capability flags. -/
structure BlockType where
  supports : Supports
deriving DecidableEq, Repr

/-- The block-type registry client: a name either resolves to a registered
`BlockType` or to `undefined` (`none`). -/
def Registry : Type := String → Option BlockType

/-- A form block: `id` and `name` (reference to a registered block type).
Type-specific attributes are irrelevant to every selector verified here. -/
structure FormBlock where
  id : String
  name : String
deriving DecidableEq, Repr

/-- The block-editor store state: the ordered block sequence, the per-block
cache-token map (`state.cache`, tokens modelled as `Nat`, absent entry as
`none`) and the current block id. -/
structure BlockEditorState where
  blocks : List FormBlock
  cache : String → Option Nat
  currentBlockId : Option String

/-- An order label: a number for editable fields, an alphabetic ident string
for non-editable blocks (TS type `BlockOrder` minus `undefined`, which is
modelled by the surrounding `Option`). -/
inductive BlockOrder where
  | num : Int → BlockOrder
  | str : String → BlockOrder
deriving DecidableEq, Repr

/-- A block augmented with its derived order label (`FormBlockWithOrder`).
The `order` field holds the value returned by `getBlockOrderById`, which may
be `undefined` (`none`). -/
structure FormBlockWithOrder where
  id : String
  name : String
  order : Option BlockOrder
deriving DecidableEq, Repr

/-- JavaScript `Array.prototype.findIndex`: index of the first element
satisfying `p`, and `-1` when there is none. -/
def jsFindIndex {α : Type} (p : α → Bool) (l : List α) : Int :=
  match l.findIdx? p with
  | some i => (i : Int)
  | none => -1

/-- Body of the `getBlocks` selector: returns the store's block list. -/
def getBlocks (state : BlockEditorState) : List FormBlock :=
  state.blocks

/-- `getBlockById`: linear scan by id, `undefined` (`none`) when absent. -/
def getBlockById (state : BlockEditorState) (blockId : String) :
    Option FormBlock :=
  state.blocks.find? (fun b => b.id == blockId)

/-- One pass of the digit loop of `identName` in `getBlockOrderById`:
the source's `while` pushes `⌊b[sp]/26⌋ - 1` and keeps `b[sp] % 26` as long
as `b[sp] > 25`; the loop runs at most `a.toNat` times, so that much fuel
makes the recursion structural without changing any value
(`identDigits_eq` below proves the source's recurrence). -/
def identDigitsAux : Nat → Int → List Int
  | 0, a => [a]
  | fuel + 1, a =>
    if 25 < a then a % 26 :: identDigitsAux fuel (a / 26 - 1) else [a]

/-- The digit list `b` produced by the loop in `identName`, least-significant
digit first. -/
def identDigits (a : Int) : List Int :=
  identDigitsAux a.toNat a

/-- The character emitted for one digit: `String.fromCharCode(97 + d)`
followed by `toUpperCase`. -/
def identChar (d : Int) : Char :=
  (Char.ofNat (97 + d).toNat).toUpper

/-- `identName` from `getBlockOrderById`: builds the digit string
most-significant digit first and upper-cases it. -/
def identName (a : Int) : String :=
  String.mk ((identDigits a).reverse.map identChar)

/-- `getEditableFields`'s filter pass: dereferences `.supports` on the
looked-up block type, so an unregistered name throws (`none`); otherwise it
keeps exactly the blocks whose type has `supports.editable === true`. -/
def filterEditable (registry : Registry) : List FormBlock →
    Option (List FormBlock)
  | [] => some []
  | b :: rest =>
    match registry b.name with
    | none => none
    | some blockType =>
      (filterEditable registry rest).map fun l =>
        if blockType.supports.editable then b :: l else l

/-- `getEditableFields`: filters `getBlocks` to the blocks whose block type
has `supports.editable === true`; throws (`none`) when some block's name is
not registered. -/
def getEditableFields (registry : Registry) (state : BlockEditorState) :
    Option (List FormBlock) :=
  filterEditable registry (getBlocks state)

/-- `getBlockOrderById`.  Outer `none` = the call throws; `some none` = the
call returns `undefined` (unknown id).  Evaluation order follows the source:
the id is resolved first (early `undefined` return), the registry is indexed
(no dereference yet), `getEditableFields()` is invoked (and may throw), and
only then is `.supports` dereferenced on the block's own type. -/
def getBlockOrderById (registry : Registry) (state : BlockEditorState)
    (id : String) : Option (Option BlockOrder) :=
  match getBlockById state id with
  | none => some none
  | some formBlock =>
    let blockTypeOpt := registry formBlock.name
    match getEditableFields registry state with
    | none => none
    | some editableFields =>
      match blockTypeOpt with
      | none => none
      | some blockType =>
        if blockType.supports.editable then
          some (some (BlockOrder.num
            (jsFindIndex (fun field => field.id == id) editableFields + 1)))
        else
          some (some (BlockOrder.str (identName
            (jsFindIndex (fun b => b.id == id)
              (state.blocks.filter (fun b => b.name == formBlock.name))))))

/-- The `forEach` body of `getPreviousEditableFieldsWithOrder` over the
slice of previous blocks: the registry lookup is guarded
(`blockType?.supports?.editable`), so an unregistered name is skipped, but
the nested `getBlockOrderById` call may still throw (`none` aborts). -/
def collectPrev (registry : Registry) (state : BlockEditorState) :
    List FormBlock → Option (List FormBlockWithOrder)
  | [] => some []
  | b :: rest =>
    match registry b.name with
    | none => collectPrev registry state rest
    | some blockType =>
      if blockType.supports.editable then
        match getBlockOrderById registry state b.id with
        | none => none
        | some ord =>
          (collectPrev registry state rest).map
            fun l => ⟨b.id, b.name, ord⟩ :: l
      else collectPrev registry state rest

/-- `getPreviousEditableFieldsWithOrder`: the editable blocks strictly
before the block with the given id, each with its order label; empty when
the id is absent (`findIndex = -1`) or first (`blockIndex = 0`). -/
def getPreviousEditableFieldsWithOrder (registry : Registry)
    (state : BlockEditorState) (id : String) :
    Option (List FormBlockWithOrder) :=
  let blocks := getBlocks state
  let blockIndex := jsFindIndex (fun b => b.id == id) blocks
  if 0 < blockIndex then
    collectPrev registry state (blocks.take blockIndex.toNat)
  else some []

-- Sanity examples (concrete evaluation of the embedding).
example : identName 0 = "A" := by decide
example : identName 25 = "Z" := by decide
example : identName 26 = "AA" := by decide
example : identName 27 = "AB" := by decide
example : identName 701 = "ZZ" := by decide
example : identName 702 = "AAA" := by decide

/-! ## Spec-side definition: bijective base-26 numeration

Written from the spec's words, independently of `identName`: the digits of
`n ≥ 1` in bijective base 26 (digits 1..26, no digit for zero), rendered
with letters `A`..`Z`.  Fuel (`n` iterations suffice, since the recursive
argument `(n-1)/26` shrinks) makes the recursion structural;
`bijDigits_succ` below proves the defining recurrence. -/

/-- Digits of `n` in bijective base 26, most-significant first:
`bijDigits 0 = []`, `bijDigits (m+1) = bijDigits (m/26) ++ [m % 26 + 1]`. -/
def bijDigitsAux : Nat → Nat → List Nat
  | 0, _ => []
  | fuel + 1, n =>
    match n with
    | 0 => []
    | m + 1 => bijDigitsAux fuel (m / 26) ++ [m % 26 + 1]

/-- Digits of `n` in bijective base 26, most-significant first. -/
def bijDigits (n : Nat) : List Nat :=
  bijDigitsAux n n

/-- Letter for a bijective digit `1..26`: `A`..`Z`. -/
def bijChar (d : Nat) : Char :=
  Char.ofNat (64 + d)

/-- The bijective base-26 letter string of `n ≥ 1`:
`A, B, …, Z, AA, AB, …` -/
def bijName (n : Nat) : String :=
  String.mk ((bijDigits n).map bijChar)

example : bijName 1 = "A" := by decide
example : bijName 26 = "Z" := by decide
example : bijName 27 = "AA" := by decide
example : bijName 28 = "AB" := by decide
example : bijName 702 = "ZZ" := by decide
example : bijName 703 = "AAA" := by decide

/-- Spec-side predicate: a block whose registered block type has
`supports.editable === true`; an unregistered name counts as not
editable. -/
def isEditableBlock (registry : Registry) (b : FormBlock) : Bool :=
  match registry b.name with
  | some bt => bt.supports.editable
  | none => false

/-! ## Recurrence lemmas (fuel irrelevance) -/

theorem identDigitsAux_congr : ∀ (f₁ f₂ : Nat) (a : Int),
    a.toNat ≤ f₁ → a.toNat ≤ f₂ →
    identDigitsAux f₁ a = identDigitsAux f₂ a := by
  intro f₁
  induction f₁ with
  | zero =>
    intro f₂ a h₁ h₂
    have ha : ¬ 25 < a := by omega
    cases f₂ with
    | zero => rfl
    | succ f₂ => simp [identDigitsAux, ha]
  | succ f₁ ih =>
    intro f₂ a h₁ h₂
    cases f₂ with
    | zero =>
      have ha : ¬ 25 < a := by omega
      simp [identDigitsAux, ha]
    | succ f₂ =>
      by_cases ha : 25 < a
      · have hlt : (a / 26 - 1).toNat < a.toNat := by omega
        simp only [identDigitsAux, if_pos ha]
        rw [ih f₂ (a / 26 - 1) (by omega) (by omega)]
      · simp [identDigitsAux, ha]

/-- The source's recurrence for the digit loop of `identName`. -/
theorem identDigits_eq (a : Int) :
    identDigits a =
      if 25 < a then a % 26 :: identDigits (a / 26 - 1) else [a] := by
  by_cases ha : 25 < a
  · obtain ⟨k, hk⟩ : ∃ k, a.toNat = k + 1 := ⟨a.toNat - 1, by omega⟩
    unfold identDigits
    rw [hk]
    simp only [identDigitsAux, if_pos ha]
    rw [identDigitsAux_congr k (a / 26 - 1).toNat (a / 26 - 1) (by omega)
      (le_refl _)]
  · unfold identDigits
    cases hk : a.toNat with
    | zero => simp [identDigitsAux, ha]
    | succ k => simp [identDigitsAux, ha]

theorem bijDigitsAux_congr : ∀ (f₁ f₂ n : Nat), n ≤ f₁ → n ≤ f₂ →
    bijDigitsAux f₁ n = bijDigitsAux f₂ n := by
  intro f₁
  induction f₁ with
  | zero =>
    intro f₂ n h₁ h₂
    interval_cases n
    cases f₂ with
    | zero => rfl
    | succ f₂ => rfl
  | succ f₁ ih =>
    intro f₂ n h₁ h₂
    cases f₂ with
    | zero =>
      interval_cases n
      rfl
    | succ f₂ =>
      cases n with
      | zero => rfl
      | succ m =>
        simp only [bijDigitsAux]
        rw [ih f₂ (m / 26) (by omega) (by omega)]

/-- The defining recurrence of bijective base-26 digits. -/
theorem bijDigits_succ (m : Nat) :
    bijDigits (m + 1) = bijDigits (m / 26) ++ [m % 26 + 1] := by
  unfold bijDigits
  simp only [bijDigitsAux]
  rw [bijDigitsAux_congr m (m / 26) (m / 26) (by omega) (le_refl _)]

/-- For a bijective digit value `r < 26`, the loop's character
(`fromCharCode(97 + r)` upper-cased) is the letter of digit `r + 1`. -/
theorem identChar_eq_bijChar (r : Nat) (hr : r < 26) :
    identChar (r : Int) = bijChar (r + 1) := by
  interval_cases r <;> decide

/-- The digit strings agree: the loop in `identName` applied to a 0-based
index `n` produces exactly the bijective base-26 letters of `n + 1`. -/
theorem identName_eq_bijName (n : Nat) :
    identName (n : Int) = bijName (n + 1) := by
  suffices h : (identDigits (n : Int)).reverse.map identChar =
      (bijDigits (n + 1)).map bijChar by
    unfold identName bijName
    rw [h]
  induction n using Nat.strong_induction_on with
  | _ n ih =>
    by_cases hn : 25 < (n : Int)
    · have h26 : 26 ≤ n := by omega
      have hm : (n : Int) / 26 - 1 = ((n / 26 - 1 : Nat) : Int) := by omega
      have hmod : (n : Int) % 26 = ((n % 26 : Nat) : Int) := by omega
      rw [identDigits_eq, if_pos hn, hm, hmod]
      simp only [List.reverse_cons, List.map_append, List.map_cons,
        List.map_nil]
      rw [ih (n / 26 - 1) (by omega)]
      have hsucc : n / 26 - 1 + 1 = n / 26 := by omega
      rw [hsucc, bijDigits_succ n]
      simp only [List.map_append, List.map_cons, List.map_nil]
      rw [identChar_eq_bijChar (n % 26) (by omega)]
    · have h25 : n ≤ 25 := by omega
      rw [identDigits_eq, if_neg hn]
      have h0 : n / 26 = 0 := by omega
      have hmod : n % 26 = n := by omega
      rw [bijDigits_succ n, h0, hmod]
      have hb0 : bijDigits 0 = [] := rfl
      rw [hb0]
      simp only [List.reverse_cons, List.reverse_nil, List.nil_append,
        List.map_cons, List.map_nil]
      rw [identChar_eq_bijChar n (by omega)]

/-! ## Helper lemmas about the embedding -/

theorem jsFindIndex_eq_findIdx {α : Type} (p : α → Bool) (l : List α)
    (h : ∃ x ∈ l, p x) : jsFindIndex p l = (l.findIdx p : Int) := by
  unfold jsFindIndex
  rw [List.findIdx?_eq_some_of_exists (by simpa using h)]

theorem jsFindIndex_eq_neg_one {α : Type} (p : α → Bool) (l : List α)
    (h : ∀ x ∈ l, ¬ p x) : jsFindIndex p l = -1 := by
  unfold jsFindIndex
  rw [List.findIdx?_eq_none_iff.mpr (by simpa using h)]

/-- When every name in `l` is registered, the filter pass of
`getEditableFields` does not throw and keeps exactly the editable blocks. -/
theorem filterEditable_eq (registry : Registry) :
    ∀ l : List FormBlock, (∀ x ∈ l, (registry x.name).isSome) →
      filterEditable registry l = some (l.filter (isEditableBlock registry)) := by
  intro l
  induction l with
  | nil => intro _; rfl
  | cons b rest ih =>
    intro h
    obtain ⟨bt, hbt⟩ := Option.isSome_iff_exists.mp
      (h b (List.mem_cons_self b rest))
    have hrest := fun x hx => h x (List.mem_cons_of_mem _ hx)
    unfold filterEditable
    rw [hbt, ih hrest]
    by_cases he : bt.supports.editable = true
    · simp [List.filter_cons, isEditableBlock, hbt, he]
    · simp [List.filter_cons, isEditableBlock, hbt, he]

/-- `getEditableFields` under a fully registered state. -/
theorem getEditableFields_eq (registry : Registry) (state : BlockEditorState)
    (hreg : ∀ x ∈ state.blocks, (registry x.name).isSome) :
    getEditableFields registry state =
      some (state.blocks.filter (isEditableBlock registry)) :=
  filterEditable_eq registry state.blocks hreg

/-- Under a fully registered state `getBlockOrderById` never throws. -/
theorem getBlockOrderById_isSome (registry : Registry)
    (state : BlockEditorState)
    (hreg : ∀ x ∈ state.blocks, (registry x.name).isSome) (id : String) :
    (getBlockOrderById registry state id).isSome := by
  cases hfind : getBlockById state id with
  | none => simp [getBlockOrderById, hfind]
  | some b =>
    have hb : b ∈ state.blocks := List.mem_of_find?_eq_some hfind
    obtain ⟨bt, hbt⟩ := Option.isSome_iff_exists.mp (hreg b hb)
    by_cases he : bt.supports.editable = true <;>
      simp [getBlockOrderById, hfind,
        getEditableFields_eq registry state hreg, hbt, he]

/-- Under a fully registered state the `forEach` of
`getPreviousEditableFieldsWithOrder` keeps exactly the editable blocks of
the given slice, in order, each with the label from `getBlockOrderById`. -/
theorem collectPrev_eq (registry : Registry) (state : BlockEditorState)
    (hreg : ∀ x ∈ state.blocks, (registry x.name).isSome)
    (l : List FormBlock) :
    collectPrev registry state l =
      some ((l.filter (isEditableBlock registry)).map
        fun b => ⟨b.id, b.name,
          (getBlockOrderById registry state b.id).join⟩) := by
  induction l with
  | nil => rfl
  | cons b rest ih =>
    cases hbt : registry b.name with
    | none => simp [collectPrev, hbt, ih, List.filter_cons, isEditableBlock]
    | some bt =>
      by_cases he : bt.supports.editable = true
      · obtain ⟨ord, hord⟩ := Option.isSome_iff_exists.mp
          (getBlockOrderById_isSome registry state hreg b.id)
        simp [collectPrev, hbt, he, hord, ih, List.filter_cons,
          isEditableBlock]
      · simp [collectPrev, hbt, he, ih, List.filter_cons, isEditableBlock]

/-- When no block of the slice has a registered editable type, the
`forEach` never reaches `getBlockOrderById` and returns the empty list:
unregistered names are skipped by the guarded lookup. -/
theorem collectPrev_eq_nil (registry : Registry) (state : BlockEditorState) :
    ∀ l : List FormBlock,
      (∀ b ∈ l, ∀ bt, registry b.name = some bt →
        bt.supports.editable = false) →
      collectPrev registry state l = some [] := by
  intro l
  induction l with
  | nil => intro _; rfl
  | cons b rest ih =>
    intro h
    have hrest := fun x hx => h x (List.mem_cons_of_mem _ hx)
    cases hbt : registry b.name with
    | none => simp [collectPrev, hbt, ih hrest]
    | some bt =>
      have hbe := h b (List.mem_cons_self b rest) bt hbt
      simp [collectPrev, hbt, hbe, ih hrest]

/-! ## Rich-text element renderer -/

/-- A Slate content node as consumed by the `Element` renderer: the `type`
discriminant and the `url` attribute (present on link nodes, `undefined`
otherwise). -/
structure SlateElement where
  type : String
  url : Option String
deriving DecidableEq, Repr

/-- The render produced by the `Element` component, parametric in the type
`C` of the children render: the merge-tag strategy (receiving the element,
the resolved path and `children={null}`), an anchor whose `href` is the
node's `url`, or the default paragraph wrapper. -/
inductive Rendered (C : Type) where
  | mergeTagRender (element : SlateElement) (path : List Nat)
      (children : Option C)
  | anchor (href : Option String) (children : C)
  | paragraph (children : C)
deriving DecidableEq, Repr

/-- The `Element` component body.  `findPath` models
`ReactEditor.findPath(editor, ·)`.  The source computes
`const path = ReactEditor.findPath(editor, element)` once, before the
dispatch on `element.type`; the second component counts how many times
`findPath` is invoked during the render. -/
def elementRender {C : Type} (findPath : SlateElement → List Nat)
    (element : SlateElement) (children : C) : Rendered C × Nat :=
  let path := findPath element
  if element.type == "mergeTag" then
    (Rendered.mergeTagRender element path none, 1)
  else if element.type == "link" then
    (Rendered.anchor element.url children, 1)
  else (Rendered.paragraph children, 1)

/-! ## Memoized derivation cache -/

/-- Modelled from the spec: the per-selector cell of the memoized
derivation cache (the external `rememo` `createSelector` dependency, spec
§2 "Memoized Derivation Cache" and §4.1 `getBlocks`): the last dependency
key, the last computed value, the reference identity of that value, and a
counter supplying fresh reference identities. -/
structure MemoCell where
  key : Option (List (Option Nat))
  val : List FormBlock
  ref : Nat
  counter : Nat
deriving DecidableEq, Repr

/-- Modelled from the spec: `getBlocks` wrapped by the memoized derivation
cache, keyed on the in-order list of per-block cache tokens
(`map(state.blocks, block => state?.cache?.[block.id])`).  A key hit
returns the stored value with its stored reference identity; a miss
recomputes, allocating a fresh reference. -/
def getBlocksMemo (state : BlockEditorState) (cell : MemoCell) :
    (List FormBlock × Nat) × MemoCell :=
  let key := state.blocks.map fun b => state.cache b.id
  if cell.key = some key then ((cell.val, cell.ref), cell)
  else
    ((getBlocks state, cell.counter),
      ⟨some key, getBlocks state, cell.counter, cell.counter + 1⟩)

/-! ## Concrete fixtures -/

/-- Fixture: an editable block type (registered under `"short-text"`). -/
def editableType : BlockType := ⟨⟨true⟩⟩

/-- Fixture: a non-editable block type (registered under `"group"`). -/
def groupType : BlockType := ⟨⟨false⟩⟩

/-- Fixture registry: `"short-text"` is registered editable, `"group"`
registered non-editable, every other name unregistered. -/
def testRegistry : Registry := fun name =>
  if name = "short-text" then some editableType
  else if name = "group" then some groupType
  else none

/-- Fixture state: editable blocks around a block with an unregistered
name. -/
def mixedState : BlockEditorState :=
  ⟨[⟨"a", "short-text"⟩, ⟨"b", "ghost"⟩, ⟨"c", "short-text"⟩],
    fun _ => some 0, none⟩

/-- Fixture state: a registered non-editable block followed by a block
with an unregistered name. -/
def groupGhostState : BlockEditorState :=
  ⟨[⟨"a", "group"⟩, ⟨"b", "ghost"⟩], fun _ => some 0, none⟩

/-- Fixture state: all names registered; editable (`"short-text"`) and
non-editable (`"group"`) blocks interleaved. -/
def regState : BlockEditorState :=
  ⟨[⟨"a", "short-text"⟩, ⟨"b", "group"⟩, ⟨"c", "short-text"⟩,
    ⟨"d", "group"⟩, ⟨"e", "short-text"⟩], fun _ => some 0, none⟩

/-- Fixture state: an unregistered-name block first, then an editable
block, then a non-editable target. -/
def ghostFirstState : BlockEditorState :=
  ⟨[⟨"b", "ghost"⟩, ⟨"a", "short-text"⟩, ⟨"c", "group"⟩],
    fun _ => some 0, none⟩

/-- Fixture state: an unregistered-name block and a non-editable block
before an editable target. -/
def ghostGroupState : BlockEditorState :=
  ⟨[⟨"b", "ghost"⟩, ⟨"d", "group"⟩, ⟨"c", "short-text"⟩],
    fun _ => some 0, none⟩

/-! ## Claim C1 -/

/-- C1 (counterexample): block `"a"` is present in `groupGhostState`, its
type `"group"` is registered and not editable, yet `getBlockOrderById` does
not return the bijective letter string `bijName (1 + 0)` — it throws
(`none`), because the eager `getEditableFields()` call dereferences
`.supports` for the unregistered name `"ghost"` of another block. -/
theorem getBlockOrderById_ident_crash_cx :
    getBlockById groupGhostState "a" = some ⟨"a", "group"⟩ ∧
    testRegistry "group" = some groupType ∧
    groupType.supports.editable = false ∧
    getBlockOrderById testRegistry groupGhostState "a" = none ∧
    getBlockOrderById testRegistry groupGhostState "a" ≠
      some (some (BlockOrder.str (bijName (1 + 0)))) := by
  refine ⟨by decide, by decide, by decide, by decide, by decide⟩

/-- C1 (amended): in a state where every block's name is registered, a
present block whose type is not editable gets the bijective base-26 letter
string of `1 +` its index among the blocks with the same name, in sequence
order (so the 26th same-named block gets `"Z"`, the 27th `"AA"`). -/
theorem getBlockOrderById_nonEditable (registry : Registry)
    (state : BlockEditorState) (id : String) (b : FormBlock) (bt : BlockType)
    (hreg : ∀ x ∈ state.blocks, (registry x.name).isSome)
    (hfind : getBlockById state id = some b)
    (hbt : registry b.name = some bt)
    (hed : bt.supports.editable = false) :
    getBlockOrderById registry state id =
      some (some (BlockOrder.str (bijName
        (1 + (state.blocks.filter (fun x => x.name == b.name)).findIdx
          (fun x => x.id == id))))) := by
  have hfind' : state.blocks.find? (fun x => x.id == id) = some b := hfind
  have hb : b ∈ state.blocks := List.mem_of_find?_eq_some hfind'
  have hpb := List.find?_some hfind'
  have hmemf : b ∈ state.blocks.filter (fun x => x.name == b.name) :=
    List.mem_filter.mpr ⟨hb, by simp⟩
  have hjs := jsFindIndex_eq_findIdx (fun x => x.id == id)
    (state.blocks.filter (fun x => x.name == b.name)) ⟨b, hmemf, hpb⟩
  have hident := identName_eq_bijName
    ((state.blocks.filter (fun x => x.name == b.name)).findIdx
      (fun x => x.id == id))
  simp only [getBlockOrderById, hfind, getEditableFields_eq registry state
    hreg, hbt, hed, hjs, hident, Bool.false_eq_true, if_false]
  rw [Nat.add_comm]

/-- C1 (witness): in `regState` the second `"group"` block `"d"` gets the
letter string `"B"`. -/
theorem getBlockOrderById_nonEditable_witness :
    getBlockOrderById testRegistry regState "d" =
      some (some (BlockOrder.str "B")) := by
  rw [getBlockOrderById_nonEditable testRegistry regState "d"
    ⟨"d", "group"⟩ groupType (by decide) (by decide) (by decide) (by decide)]
  decide

/-! ## Claim C2 -/

/-- C2 (counterexample): block `"a"` is present in `mixedState`, its type
`"short-text"` is registered with `supports.editable = true`, yet
`getBlockOrderById` does not return `1 +` its index among the editable
fields — it throws (`none`), because `getEditableFields()` dereferences
`.supports` for the unregistered name `"ghost"` of another block. -/
theorem getBlockOrderById_editable_crash_cx :
    getBlockById mixedState "a" = some ⟨"a", "short-text"⟩ ∧
    testRegistry "short-text" = some editableType ∧
    editableType.supports.editable = true ∧
    getBlockOrderById testRegistry mixedState "a" = none ∧
    getBlockOrderById testRegistry mixedState "a" ≠
      some (some (BlockOrder.num 1)) := by
  refine ⟨by decide, by decide, by decide, by decide, by decide⟩

/-- C2 (amended): in a state where every block's name is registered, a
present block whose type has `supports.editable === true` gets the numeric
order `index within getEditableFields + 1` (1-based position among the
editable fields, in sequence order). -/
theorem getBlockOrderById_editable (registry : Registry)
    (state : BlockEditorState) (id : String) (b : FormBlock) (bt : BlockType)
    (efs : List FormBlock)
    (hreg : ∀ x ∈ state.blocks, (registry x.name).isSome)
    (hfind : getBlockById state id = some b)
    (hbt : registry b.name = some bt)
    (hed : bt.supports.editable = true)
    (hefs : getEditableFields registry state = some efs) :
    getBlockOrderById registry state id =
      some (some (BlockOrder.num
        ((efs.findIdx (fun field => field.id == id) : Int) + 1))) := by
  have hfind' : state.blocks.find? (fun x => x.id == id) = some b := hfind
  have hb : b ∈ state.blocks := List.mem_of_find?_eq_some hfind'
  have hpb := List.find?_some hfind'
  have hefs' : efs = state.blocks.filter (isEditableBlock registry) := by
    have := getEditableFields_eq registry state hreg
    rw [hefs] at this
    exact Option.some.inj this
  have hmemf : b ∈ efs := by
    rw [hefs']
    exact List.mem_filter.mpr ⟨hb, by simp [isEditableBlock, hbt, hed]⟩
  have hjs := jsFindIndex_eq_findIdx (fun field => field.id == id) efs
    ⟨b, hmemf, hpb⟩
  simp only [getBlockOrderById, hfind, hefs, hbt, hed, if_true, hjs]

/-- C2 (witness): in `regState` the second editable block `"c"` gets the
numeric order `2` (the non-editable `"group"` block before it does not
count). -/
theorem getBlockOrderById_editable_witness :
    getBlockOrderById testRegistry regState "c" =
      some (some (BlockOrder.num 2)) := by
  rw [getBlockOrderById_editable testRegistry regState "c"
    ⟨"c", "short-text"⟩ editableType
    [⟨"a", "short-text"⟩, ⟨"c", "short-text"⟩, ⟨"e", "short-text"⟩]
    (by decide) (by decide) (by decide) (by decide) (by decide)]
  decide

/-! ## Claim C3 -/

/-- C3 (counterexample): `"c"` is present in `mixedState` with the editable
block `"a"` before it, yet `getPreviousEditableFieldsWithOrder` does not
return the previous editable fields — it throws (`none`), because the
order-label computation for `"a"` runs the unguarded `getEditableFields()`
over the unregistered name `"ghost"`. -/
theorem getPrev_crash_cx :
    (⟨"c", "short-text"⟩ : FormBlock) ∈ mixedState.blocks ∧
    isEditableBlock testRegistry ⟨"a", "short-text"⟩ = true ∧
    getPreviousEditableFieldsWithOrder testRegistry mixedState "c" =
      none := by
  refine ⟨by decide, by decide, by decide⟩

/-- C3 (amended): in a state where every block's name is registered, for a
present id the selector returns exactly the editable-field blocks strictly
before that block in the full order, preserving that order, each augmented
with the order label produced by `getBlockOrderById`. -/
theorem getPreviousEditableFieldsWithOrder_spec (registry : Registry)
    (state : BlockEditorState) (id : String)
    (hreg : ∀ x ∈ state.blocks, (registry x.name).isSome)
    (hpres : ∃ x ∈ state.blocks, x.id == id) :
    getPreviousEditableFieldsWithOrder registry state id =
      some (((state.blocks.take
          (state.blocks.findIdx (fun x => x.id == id))).filter
            (isEditableBlock registry)).map
        fun b => ⟨b.id, b.name,
          (getBlockOrderById registry state b.id).join⟩) := by
  have hjs := jsFindIndex_eq_findIdx (fun x => x.id == id) state.blocks hpres
  unfold getPreviousEditableFieldsWithOrder
  simp only [getBlocks, hjs]
  by_cases h0 : 0 < state.blocks.findIdx (fun x => x.id == id)
  · rw [if_pos (by exact_mod_cast h0), Int.toNat_natCast]
    exact collectPrev_eq registry state hreg _
  · have hk0 : state.blocks.findIdx (fun x => x.id == id) = 0 := by omega
    rw [hk0]
    norm_num

/-- C3 (witness): in `regState` with target `"e"` the previous editable
fields are `"a"` and `"c"`, in that order, with orders `1` and `2`. -/
theorem getPreviousEditableFieldsWithOrder_spec_witness :
    getPreviousEditableFieldsWithOrder testRegistry regState "e" =
      some [⟨"a", "short-text", some (BlockOrder.num 1)⟩,
        ⟨"c", "short-text", some (BlockOrder.num 2)⟩] := by
  rw [getPreviousEditableFieldsWithOrder_spec testRegistry regState "e"
    (by decide) ⟨⟨"e", "short-text"⟩, by decide, by decide⟩]
  decide

/-! ## Claim C4 -/

/-- C4: for an id absent from the block sequence no call throws and
absence is signalled by the return value: `getBlockById` and
`getBlockOrderById` return `undefined`, and
`getPreviousEditableFieldsWithOrder` returns the empty sequence — for
every registry, including one with unregistered names. -/
theorem unknownId_semantics (registry : Registry)
    (state : BlockEditorState) (id : String)
    (h : ∀ b ∈ state.blocks, ¬ b.id = id) :
    getBlockById state id = none ∧
    getBlockOrderById registry state id = some none ∧
    getPreviousEditableFieldsWithOrder registry state id = some [] := by
  have hfind : getBlockById state id = none :=
    List.find?_eq_none.mpr (by intro x hx; simpa using h x hx)
  refine ⟨hfind, by simp [getBlockOrderById, hfind], ?_⟩
  have hjs := jsFindIndex_eq_neg_one (fun b => b.id == id) state.blocks
    (by intro x hx; simpa using h x hx)
  simp [getPreviousEditableFieldsWithOrder, getBlocks, hjs]

/-- C4 (witness): the id `"missing"` is in no block of `mixedState`. -/
theorem unknownId_semantics_witness :
    getBlockById mixedState "missing" = none ∧
    getBlockOrderById testRegistry mixedState "missing" = some none ∧
    getPreviousEditableFieldsWithOrder testRegistry mixedState "missing" =
      some [] :=
  unknownId_semantics testRegistry mixedState "missing" (by decide)

/-! ## Claim C5 -/

/-- C5: there is a state under which `getEditableFields` and
`getBlockOrderById` fail: when the registry has no entry for some present
block's name, both selectors dereference `.supports` on the absent type and
throw (`none`) instead of returning a defined result. -/
theorem unregisteredName_crashes :
    ∃ (state : BlockEditorState) (id : String) (b : FormBlock),
      b ∈ state.blocks ∧ testRegistry b.name = none ∧
      getEditableFields testRegistry state = none ∧
      getBlockOrderById testRegistry state id = none :=
  ⟨mixedState, "a", ⟨"b", "ghost"⟩, by decide, by decide, by decide,
    by decide⟩

/-! ## Claim C6 -/

/-- C6: in a state where every block's name is registered,
`getEditableFields` equals the subsequence of `getBlocks` consisting of
exactly the blocks whose type has `supports.editable === true`, with the
relative order preserved. -/
theorem getEditableFields_filter_spec (registry : Registry)
    (state : BlockEditorState)
    (hreg : ∀ x ∈ state.blocks, (registry x.name).isSome) :
    getEditableFields registry state =
      some ((getBlocks state).filter (isEditableBlock registry)) :=
  getEditableFields_eq registry state hreg

/-- C6 (witness): in `regState` the editable fields are the three
`"short-text"` blocks, in their original order. -/
theorem getEditableFields_filter_spec_witness :
    getEditableFields testRegistry regState =
      some [⟨"a", "short-text"⟩, ⟨"c", "short-text"⟩,
        ⟨"e", "short-text"⟩] := by
  rw [getEditableFields_filter_spec testRegistry regState (by decide)]
  decide

/-! ## Claim C7 -/

/-- C7: the element renderer dispatches on the node's `type` tag: a
`"link"` node renders an anchor whose `href` is the node's `url` attribute
wrapping the children; a `"mergeTag"` node renders the merge-tag strategy
with `null` children; every other type renders the paragraph wrapper
around the children. -/
theorem elementRender_dispatch {C : Type}
    (findPath : SlateElement → List Nat) (element : SlateElement)
    (children : C) :
    (element.type = "link" →
      (elementRender findPath element children).1 =
        Rendered.anchor element.url children) ∧
    (element.type = "mergeTag" →
      (elementRender findPath element children).1 =
        Rendered.mergeTagRender element (findPath element) none) ∧
    (element.type ≠ "link" → element.type ≠ "mergeTag" →
      (elementRender findPath element children).1 =
        Rendered.paragraph children) := by
  refine ⟨?_, ?_, ?_⟩
  · intro h
    simp [elementRender, h]
  · intro h
    simp [elementRender, h]
  · intro h1 h2
    simp [elementRender, h1, h2]

/-- C7 (witness): a `"link"` node with `url = "https://x"` renders the
anchor with that `href` around its children. -/
theorem elementRender_dispatch_witness :
    (elementRender (fun _ => [0]) ⟨"link", some "https://x"⟩ true).1 =
      Rendered.anchor (some "https://x") true :=
  (elementRender_dispatch (fun _ => [0]) ⟨"link", some "https://x"⟩
    true).1 rfl

/-! ## Claim C8 -/

/-- C8 (counterexample): a `"link"` node is not a merge tag, yet the
renderer does invoke `ReactEditor.findPath` (the call count is `1`, not
`0`): the source computes `path` unconditionally before the dispatch. -/
theorem elementRender_findPath_cx :
    (⟨"link", some "https://x"⟩ : SlateElement).type ≠ "mergeTag" ∧
    (elementRender (fun _ => [0, 1]) (⟨"link", some "https://x"⟩ :
      SlateElement) ()).2 ≠ 0 := by
  refine ⟨by decide, by decide⟩

/-- C8 (amended): `ReactEditor.findPath` is invoked exactly once for every
node, whatever its type; its result influences the render only for
`"mergeTag"` nodes — for any other type the output is independent of the
resolved path. -/
theorem elementRender_findPath_once (fp fp' : SlateElement → List Nat)
    {C : Type} (element : SlateElement) (children : C) :
    (elementRender fp element children).2 = 1 ∧
    (element.type ≠ "mergeTag" →
      (elementRender fp element children).1 =
        (elementRender fp' element children).1) := by
  constructor
  · unfold elementRender
    split
    · rfl
    · split <;> rfl
  · intro h
    unfold elementRender
    simp only [beq_iff_eq, h, if_false]

/-- C8 (witness): for a `"link"` node the call count is `1` and two
different path resolvers yield the same render. -/
theorem elementRender_findPath_once_witness :
    (elementRender (fun _ => [2]) ⟨"link", some "https://x"⟩ false).2 = 1 ∧
    (elementRender (fun _ => [2]) ⟨"link", some "https://x"⟩ false).1 =
      (elementRender (fun _ => [3]) ⟨"link", some "https://x"⟩ false).1 :=
  ⟨(elementRender_findPath_once (fun _ => [2]) (fun _ => [3])
      ⟨"link", some "https://x"⟩ false).1,
    (elementRender_findPath_once (fun _ => [2]) (fun _ => [3])
      ⟨"link", some "https://x"⟩ false).2 (by decide)⟩

/-! ## Claim C9 -/

/-- C9: two successive calls of the memoized `getBlocks` on the same state
return the identical reference (same value and same reference identity, the
memo key being the in-order list of per-block cache tokens), and the cache
cell is left unchanged by the second call. -/
theorem getBlocksMemo_idempotent (state : BlockEditorState)
    (cell : MemoCell) :
    getBlocksMemo state (getBlocksMemo state cell).2 =
      ((getBlocksMemo state cell).1, (getBlocksMemo state cell).2) := by
  unfold getBlocksMemo
  by_cases h : cell.key = some (state.blocks.map fun b => state.cache b.id)
  · simp [h]
  · simp [h]

/-! ## Claim C10 -/

/-- C10 (counterexample): `ghostFirstState` contains the unregistered
predecessor `"b"` before the target `"c"`, and the selector DOES fail
(`none`): the guarded lookup skips `"b"` itself, but the editable
predecessor `"a"` triggers `getBlockOrderById`, whose unguarded
`getEditableFields()` dereferences `.supports` for `"ghost"`. -/
theorem getPrev_unregistered_crash_cx :
    (⟨"b", "ghost"⟩ : FormBlock) ∈ ghostFirstState.blocks.take 2 ∧
    testRegistry "ghost" = none ∧
    getPreviousEditableFieldsWithOrder testRegistry ghostFirstState "c" =
      none := by
  refine ⟨by decide, by decide, by decide⟩

/-- C10 (amended): the selector's own registry lookup is guarded, so an
unregistered predecessor is skipped as non-editable rather than
dereferenced: whenever no predecessor has a registered editable type the
selector completes and returns the empty sequence, even when predecessors
are unregistered.  (It can still fail on such states through its call to
`getBlockOrderById` when some predecessor is editable.) -/
theorem getPrev_guarded_skips_unregistered (registry : Registry)
    (state : BlockEditorState) (id : String)
    (h : ∀ b ∈ state.blocks.take
        (state.blocks.findIdx (fun x => x.id == id)),
      ∀ bt, registry b.name = some bt → bt.supports.editable = false) :
    getPreviousEditableFieldsWithOrder registry state id = some [] := by
  by_cases hpres : ∃ x ∈ state.blocks, x.id == id
  · have hjs := jsFindIndex_eq_findIdx (fun x => x.id == id)
      state.blocks hpres
    unfold getPreviousEditableFieldsWithOrder
    simp only [getBlocks, hjs]
    by_cases h0 : 0 < state.blocks.findIdx (fun x => x.id == id)
    · rw [if_pos (by exact_mod_cast h0), Int.toNat_natCast]
      exact collectPrev_eq_nil registry state _ h
    · have hk0 : state.blocks.findIdx (fun x => x.id == id) = 0 := by omega
      rw [hk0]
      norm_num
  · have hjs := jsFindIndex_eq_neg_one (fun x => x.id == id) state.blocks
      (by intro x hx hpx; exact hpres ⟨x, hx, hpx⟩)
    simp [getPreviousEditableFieldsWithOrder, getBlocks, hjs]

/-- C10 (witness): in `ghostGroupState` the predecessors of `"c"` are an
unregistered block and a non-editable block; the selector does not fail
and omits both. -/
theorem getPrev_guarded_skips_unregistered_witness :
    getPreviousEditableFieldsWithOrder testRegistry ghostGroupState "c" =
      some [] :=
  getPrev_guarded_skips_unregistered testRegistry ghostGroupState "c"
    (by decide)
